import Mathlib

/-!
Shallow embedding of the label-generator core (src/app.py): the address
normalizer `process_address` (lines 45-72) and the grid-layout portion of
`generate_word_doc` (lines 81-128).  Strings are modelled as `List Char`
(Python `str` is a sequence of Unicode code points, as is `List Char`).
-/

namespace App

/-- Python whitespace as recognised by `str.strip` on the characters that can
occur here: ASCII whitespace plus the ideographic space U+3000. -/
def isPySpace (c : Char) : Bool :=
  c = ' ' || c = '\t' || c = '\n' || c = '\r' || c = '\x0b' || c = '\x0c' || c = '　'

/-- `str.strip()`: remove leading and trailing whitespace (line 50). -/
def pyStrip (s : List Char) : List Char :=
  ((s.dropWhile isPySpace).reverse.dropWhile isPySpace).reverse

/-- `\d` of the pattern on line 52.  Python `\d` matches Unicode decimal
digits; the embedding covers the ASCII block and the full-width block
U+FF10-U+FF19, the decimal digits that occur in this data. -/
def isReDigit (c : Char) : Bool :=
  c.isDigit || (0xFF10 ≤ c.toNat && c.toNat ≤ 0xFF19)

/-- The character class `[\(（]` on line 52. -/
def isOpenParen (c : Char) : Bool := c = '(' || c = '（'

/-- The character class `[\)）]` on line 52. -/
def isCloseParen (c : Char) : Bool := c = ')' || c = '）'

/-- Python `.` (no DOTALL): `(.*)` captures the rest of the string up to,
not including, the first newline. -/
def lineTake (s : List Char) : List Char := s.takeWhile (fun c => !(c = '\n'))

/-- The part of the pattern after the optional opening parenthesis:
`(\d{3})[\)）]?(.*)`.  Returns `(group 1, group 2)` on success.  Both
quantifiers are greedy: the closing parenthesis is consumed whenever the
character after the three digits is one. -/
def matchCore (t : List Char) : Option (List Char × List Char) :=
  match t with
  | d1 :: d2 :: d3 :: rest =>
    if isReDigit d1 && isReDigit d2 && isReDigit d3 then
      match rest with
      | c :: rest2 =>
        if isCloseParen c then some ([d1, d2, d3], lineTake rest2)
        else some ([d1, d2, d3], lineTake rest)
      | [] => some ([d1, d2, d3], [])
    else none
  | _ => none

/-- `re.match(r'^[\(（]?(\d{3})[\)）]?(.*)', s)` (line 52).  The optional
opening parenthesis is greedy; if it is taken and the digits then fail,
Python backtracks to the zero-width alternative, which also fails because a
parenthesis is not a digit — so trying only the greedy branch is exact. -/
def matchZip (s : List Char) : Option (List Char × List Char) :=
  match s with
  | c :: t => if isOpenParen c then matchCore t else matchCore s
  | [] => none

/-- The blank 3-character placeholder `"   "` (lines 48 and 72). -/
def blank3 : List Char := [' ', ' ', ' ']

/-- One needle-in-haystack substring test, Python `town in raw_address`
(line 69). -/
def isSubstring (needle hay : List Char) : Bool :=
  needle.isPrefixOf hay ||
    match hay with
    | [] => false
    | _ :: t => isSubstring needle t

/-- The fallback gazetteer `zip_map` (lines 60-66), as the ordered list of
pairs that Python 3.7+ dict iteration yields: insertion order, all keys
distinct. -/
def zip_map : List (List Char × List Char) :=
  [("花蓮市".data, "970".data), ("新城鄉".data, "971".data), ("秀林鄉".data, "972".data),
   ("吉安鄉".data, "973".data), ("壽豐鄉".data, "974".data), ("鳳林鎮".data, "975".data),
   ("光復鄉".data, "976".data), ("豐濱鄉".data, "977".data), ("瑞穗鄉".data, "978".data),
   ("萬榮鄉".data, "979".data), ("玉里鎮".data, "981".data), ("卓溪鄉".data, "982".data),
   ("富里鄉".data, "983".data), ("臺東市".data, "950".data)]

/-- `process_address` (lines 45-72), parameterised by the gazetteer so that
independence from it can be stated.  `none` models a non-string argument
(line 47). -/
def processAddressWith (zmap : List (List Char × List Char)) :
    Option (List Char) → List Char × List Char
  | none => (blank3, [])
  | some raw =>
    let t := pyStrip raw
    match matchZip t with
    | some (z, g2) => (z, pyStrip g2)
    | none =>
      match zmap.find? (fun p => isSubstring p.1 t) with
      | some p => (p.2, t)
      | none => (blank3, t)

/-- `process_address` as in the source, with its literal `zip_map`. -/
def process_address : Option (List Char) → List Char × List Char :=
  processAddressWith zip_map

/-- Lines 115-118 of `generate_word_doc`: the address cell is stripped and a
literal `'nan'` (pandas' missing-value placeholder under `str`) becomes the
empty string before `process_address` is called. -/
def cellString (s : List Char) : List Char :=
  let t := pyStrip s
  if t = "nan".data then [] else t

/-- The per-record normalization pipeline of `generate_word_doc`
(lines 115-120): cell-cleaning followed by `process_address`. -/
def normalizeCell (s : List Char) : List Char × List Char :=
  process_address (some (cellString s))

/-! ## Grid layout (`generate_word_doc`, lines 81-128) -/

/-- `rows_needed = (total_items + 1) // 2` (line 98). -/
def rows_needed (total : Nat) : Nat := (total + 1) / 2

/-- Record-to-cell assignment, `r = index // 2`, `c = index % 2`
(lines 111-112). -/
def place (index : Nat) : Nat × Nat := (index / 2, index % 2)

/-- The grid the function builds: row count plus one `(row, column)` cell
per record, in record order. -/
structure LayoutResult where
  rows : Nat
  cells : List (Nat × Nat)
deriving DecidableEq, Repr

/-- The layout core of `generate_word_doc`: a table of `rows_needed` rows by
2 columns (line 100), each record index placed at `place index`
(lines 110-112).  The function has no failure value: it is total in the
record count. -/
def layoutGrid (total : Nat) : LayoutResult :=
  ⟨rows_needed total, (List.range total).map place⟩

/-! Geometry, in EMU (python-docx units: `Cm(x)` is `x * 360000` EMU).
One layout unit of 1/100 cm is 3600 EMU. -/

/-- EMU per 1/100 cm. -/
def emuPerCm100 : Nat := 3600

/-- `section.page_height = Cm(29.7)` (line 87). -/
def pageHeightEmu : Nat := 2970 * emuPerCm100

/-- `section.top_margin = Cm(0)` (line 89). -/
def topMarginEmu : Nat := 0

/-- `section.bottom_margin = Cm(0)` (line 90). -/
def bottomMarginEmu : Nat := 0

/-- `row_height_val = Cm(3.7)` (line 108): a fixed constant, not a quotient. -/
def rowHeightEmu : Nat := 370 * emuPerCm100

/-- The fixed target row count of the sheet: the UI advertises a 2 x 8 grid
(line 184) and the height comment (lines 106-107) computes with 8 rows. -/
def rowsTarget : Nat := 8

/-- Fixed column count (line 100). -/
def columnsFixed : Nat := 2

/-! ## Helper lemmas -/

lemma digit_ne_newline (c : Char) (h : isReDigit c = true) : ¬(c = '\n') := by
  intro hc
  subst hc
  exact absurd h (by decide)

lemma digit_not_open (c : Char) (h : isReDigit c = true) : isOpenParen c = false := by
  by_cases h1 : c = '('
  · subst h1; exact absurd h (by decide)
  by_cases h2 : c = '（'
  · subst h2; exact absurd h (by decide)
  simp [isOpenParen, h1, h2]

lemma digit_not_close (c : Char) (h : isReDigit c = true) : isCloseParen c = false := by
  by_cases h1 : c = ')'
  · subst h1; exact absurd h (by decide)
  by_cases h2 : c = '）'
  · subst h2; exact absurd h (by decide)
  simp [isCloseParen, h1, h2]

lemma digit_not_space (c : Char) (h : isReDigit c = true) : isPySpace c = false := by
  rcases Bool.eq_false_or_eq_true (isPySpace c) with ht | hf
  · exfalso
    have hcs : (((((c = ' ' ∨ c = '\t') ∨ c = '\n') ∨ c = '\r') ∨ c = '\x0b') ∨ c = '\x0c')
        ∨ c = '　' := by
      simpa [isPySpace] using ht
    rcases hcs with ((((((rfl | rfl) | rfl) | rfl) | rfl) | rfl) | rfl) <;>
      exact absurd h (by decide)
  · exact hf

lemma matchZip_open (p : Char) (t : List Char) (hp : isOpenParen p = true) :
    matchZip (p :: t) = matchCore t := by
  simp [matchZip, hp]

lemma matchZip_notOpen (c : Char) (t : List Char) (hc : isOpenParen c = false) :
    matchZip (c :: t) = matchCore (c :: t) := by
  simp [matchZip, hc]

lemma matchCore_nil (d1 d2 d3 : Char)
    (h1 : isReDigit d1 = true) (h2 : isReDigit d2 = true) (h3 : isReDigit d3 = true) :
    matchCore [d1, d2, d3] = some ([d1, d2, d3], []) := by
  simp [matchCore, h1, h2, h3]

lemma matchCore_close (d1 d2 d3 c : Char) (rest2 : List Char)
    (h1 : isReDigit d1 = true) (h2 : isReDigit d2 = true) (h3 : isReDigit d3 = true)
    (hc : isCloseParen c = true) :
    matchCore (d1 :: d2 :: d3 :: c :: rest2) = some ([d1, d2, d3], lineTake rest2) := by
  simp [matchCore, h1, h2, h3, hc]

lemma matchCore_noClose (d1 d2 d3 c : Char) (rest2 : List Char)
    (h1 : isReDigit d1 = true) (h2 : isReDigit d2 = true) (h3 : isReDigit d3 = true)
    (hc : isCloseParen c = false) :
    matchCore (d1 :: d2 :: d3 :: c :: rest2) = some ([d1, d2, d3], lineTake (c :: rest2)) := by
  simp [matchCore, h1, h2, h3, hc, lineTake]

lemma processWith_of_match (zmap : List (List Char × List Char)) (s z g2 : List Char)
    (hm : matchZip (pyStrip s) = some (z, g2)) :
    processAddressWith zmap (some s) = (z, pyStrip g2) := by
  simp [processAddressWith, hm]

lemma processWith_of_noMatch (zmap : List (List Char × List Char)) (s : List Char)
    (hm : matchZip (pyStrip s) = none) :
    processAddressWith zmap (some s) =
      match zmap.find? (fun p => isSubstring p.1 (pyStrip s)) with
      | some p => (p.2, pyStrip s)
      | none => (blank3, pyStrip s) := by
  simp [processAddressWith, hm]

lemma find?_eq_of_first {α : Type} (p : α → Bool) :
    ∀ (l : List α) (i : Nat) (a : α), l[i]? = some a → p a = true →
      (∀ j, j < i → ∀ b, l[j]? = some b → p b = false) →
      l.find? p = some a := by
  intro l
  induction l with
  | nil => intro i a ha; simp at ha
  | cons x t ih =>
    intro i a ha hp hfirst
    cases i with
    | zero =>
      simp at ha
      subst ha
      simp [List.find?_cons, hp]
    | succ k =>
      have hx : p x = false := hfirst 0 (Nat.succ_pos k) x (by simp)
      have hrest : t.find? p = some a := by
        apply ih k a (by simpa using ha) hp
        intro j hj b hb
        exact hfirst (j + 1) (Nat.succ_lt_succ hj) b (by simpa using hb)
      simp [List.find?_cons, hx, hrest]

lemma lineTake_append_digits (ds t : List Char) (hds : ∀ c ∈ ds, isReDigit c = true) :
    lineTake (ds ++ t) = ds ++ lineTake t := by
  induction ds with
  | nil => simp
  | cons d ds ih =>
    have hd : ¬(d = '\n') := digit_ne_newline d (hds d (by simp))
    have ht : lineTake (ds ++ t) = ds ++ lineTake t := ih (fun c hc => hds c (by simp [hc]))
    simp only [List.cons_append, lineTake, List.takeWhile_cons, hd]
    simpa [lineTake] using ht

lemma dropWhile_head_false {p : Char → Bool} (d : Char) (t : List Char) (hd : p d = false) :
    (d :: t).dropWhile p = d :: t := by
  simp [List.dropWhile_cons, hd]

lemma dropWhile_append_keeps {p : Char → Bool} (c : Char) (ys : List Char) (hc : p c = false) :
    ∀ x : List Char, ∃ v, (x ++ c :: ys).dropWhile p = v ++ c :: ys := by
  intro x
  induction x with
  | nil => exact ⟨[], by simp [List.dropWhile_cons, hc]⟩
  | cons a x ih =>
    by_cases ha : p a
    · obtain ⟨v, hv⟩ := ih
      exact ⟨v, by simpa [List.dropWhile_cons, ha] using hv⟩
    · exact ⟨a :: x, by simp [List.dropWhile_cons, ha]⟩

lemma pyStrip_keeps_front (ds t : List Char) (hne : ds ≠ [])
    (hsp : ∀ c ∈ ds, isPySpace c = false) :
    ∃ u, pyStrip (ds ++ t) = ds ++ u := by
  obtain ⟨d, ds', rfl⟩ := List.exists_cons_of_ne_nil hne
  have h1 : ((d :: ds') ++ t).dropWhile isPySpace = (d :: ds') ++ t :=
    dropWhile_head_false d _ (hsp d (by simp))
  obtain ⟨c, ys, hrev⟩ : ∃ c ys, (d :: ds').reverse = c :: ys := by
    rcases List.exists_cons_of_ne_nil (by simp : (d :: ds').reverse ≠ []) with ⟨c, ys, h⟩
    exact ⟨c, ys, h⟩
  have hc : isPySpace c = false := by
    apply hsp
    have hmem : c ∈ (d :: ds').reverse := by rw [hrev]; simp
    exact List.mem_reverse.mp hmem
  obtain ⟨v, hv⟩ := dropWhile_append_keeps c ys hc t.reverse
  refine ⟨v.reverse, ?_⟩
  unfold pyStrip
  rw [h1, List.reverse_append, hrev, hv]
  rw [List.reverse_append, ← hrev]
  simp

lemma matchCore_shape (t z g2 : List Char) (h : matchCore t = some (z, g2)) :
    z.length = 3 ∧ ∀ c ∈ z, isReDigit c = true := by
  match t with
  | [] => simp [matchCore] at h
  | [d1] => simp [matchCore] at h
  | [d1, d2] => simp [matchCore] at h
  | d1 :: d2 :: d3 :: rest =>
    by_cases hd : (isReDigit d1 && isReDigit d2 && isReDigit d3) = true
    · have hz : z = [d1, d2, d3] := by
        match rest with
        | [] =>
          simp only [matchCore, hd, if_true] at h
          exact (Prod.mk.injEq _ _ _ _ ▸ (Option.some.injEq _ _ ▸ h)).1.symm
        | c :: rest2 =>
          simp only [matchCore, hd, if_true] at h
          by_cases hc : isCloseParen c = true <;> simp [hc] at h <;> exact h.1.symm
      subst hz
      refine ⟨rfl, ?_⟩
      intro c hc
      simp only [Bool.and_eq_true] at hd
      simp only [List.mem_cons, List.not_mem_nil, or_false] at hc
      rcases hc with rfl | rfl | rfl
      · exact hd.1.1
      · exact hd.1.2
      · exact hd.2
    · simp [matchCore, hd] at h

lemma matchZip_shape (s z g2 : List Char) (h : matchZip s = some (z, g2)) :
    z.length = 3 ∧ ∀ c ∈ z, isReDigit c = true := by
  match s with
  | [] => simp [matchZip] at h
  | c :: t =>
    by_cases hc : isOpenParen c = true
    · exact matchCore_shape t z g2 (by rwa [matchZip_open c t hc] at h)
    · exact matchCore_shape (c :: t) z g2
        (by rwa [matchZip_notOpen c t (Bool.not_eq_true _ ▸ hc : isOpenParen c = false)] at h)

/-! ## Claim theorems -/

/-- C1 (counterexample): at the claim's own example input of 17 records
with 2 columns and a target of 8 rows, the layout signals no Overflow
error — it is a total function that returns 9 rows and lays out all 17
records, placing the excess record index 16 at cell (8, 0) beyond the
8-row target, contradicting "signals a distinct Overflow error and never
lays out the excess records". -/
theorem layoutGrid_overflow_cex :
    (layoutGrid 17).rows = 9 ∧ (layoutGrid 17).cells.length = 17 ∧
      (8, 0) ∈ (layoutGrid 17).cells := by
  decide

/-- C1 (amended): the layout never signals an error. For every record
count exceeding the 8-row, 2-column capacity it still returns one cell per
record, with the excess records placed in rows at or beyond the target
(cell (8, 0) is occupied); no record is dropped or truncated. -/
theorem layoutGrid_no_overflow_error (total : Nat)
    (h : rowsTarget * columnsFixed < total) :
    (layoutGrid total).cells.length = total ∧ (8, 0) ∈ (layoutGrid total).cells := by
  constructor
  · simp [layoutGrid]
  · have h16 : (16 : Nat) < total := by
      simpa [rowsTarget, columnsFixed] using h
    have hp : (8, 0) = place 16 := by decide
    rw [hp]
    exact List.mem_map_of_mem place (List.mem_range.mpr h16)

/-- C1 (witness): instantiated at 17 records. -/
theorem layoutGrid_no_overflow_error_witness :
    rowsTarget * columnsFixed < 17 ∧
      ((layoutGrid 17).cells.length = 17 ∧ (8, 0) ∈ (layoutGrid 17).cells) :=
  ⟨by decide, layoutGrid_no_overflow_error 17 (by decide)⟩

/-- C5 (counterexample): the row height is the fixed constant Cm(3.7), not
`(page_height - top_margin - bottom_margin) / rows_target`, and the 8 rows
fall 10 layout units (0.1 cm = 36000 EMU) short of the 29.7 cm page
height — more than the claimed one-layout-unit (1/100 cm) tolerance. -/
theorem cellHeight_precision_cex :
    rowHeightEmu ≠ (pageHeightEmu - topMarginEmu - bottomMarginEmu) / rowsTarget ∧
      pageHeightEmu - rowsTarget * rowHeightEmu = 10 * emuPerCm100 ∧
      emuPerCm100 < pageHeightEmu - rowsTarget * rowHeightEmu := by
  decide

/-- C5 (amended): the cell height is the hard-coded 3.7 cm (1332000 EMU);
8 rows of it cover 29.6 cm, leaving a deliberate 0.1 cm (ten layout units)
buffer below the 29.7 cm page height rather than tiling it to within one
layout unit. -/
theorem cellHeight_fixed_buffer :
    rowHeightEmu = 1332000 ∧
      rowsTarget * rowHeightEmu = 2960 * emuPerCm100 ∧
      pageHeightEmu - rowsTarget * rowHeightEmu = 10 * emuPerCm100 := by
  decide

/-- C6: with the fixed 2 columns, the computed row count
`rows_needed = (total + 1) // 2` is exactly `ceil(total / 2)`: it is the
least row count whose capacity `2 * rows` reaches `total`, and it never
truncates — a remainder adds one extra row with at most one empty cell. -/
theorem rows_needed_is_ceil (n : Nat) :
    rows_needed n = (n + 1) / 2 ∧ n ≤ 2 * rows_needed n ∧ 2 * rows_needed n ≤ n + 1 := by
  unfold rows_needed
  omega

/-- C7: each record index is assigned to `(index / 2, index % 2)`; distinct
records get distinct cells, and the placement is strictly increasing in
row-major order (later records land on a later row, or further right in
the same row), so record order determines placement. -/
theorem place_row_major (i j : Nat) (hij : i < j) :
    place i = (i / 2, i % 2) ∧ place j ≠ place i ∧
      ((place i).1 < (place j).1 ∨ ((place i).1 = (place j).1 ∧ (place i).2 < (place j).2)) := by
  unfold place
  refine ⟨rfl, ?_, ?_⟩
  · simp only [ne_eq, Prod.mk.injEq, not_and]
    omega
  · simp only
    omega

/-- C7 (witness): records 0 and 1 share row 0, record 1 to the right. -/
theorem place_row_major_witness :
    0 < 1 ∧ (place 0 = (0 / 2, 0 % 2) ∧ place 1 ≠ place 0 ∧
      ((place 0).1 < (place 1).1 ∨ ((place 0).1 = (place 1).1 ∧ (place 0).2 < (place 1).2))) :=
  ⟨by decide, place_row_major 0 1 (by decide)⟩

lemma process_address_eq (x : Option (List Char)) :
    process_address x = processAddressWith zip_map x := rfl

/-- C4: address normalization is total and well-formed on every input,
non-strings (modelled as `none`) included: the returned postal code always
has exactly 3 characters and is either all digits or the blank
placeholder, and a non-string yields the blank placeholder with empty
body.  Totality itself is structural: `process_address` is a Lean
function, the embedding of a Python function with no raise path. -/
theorem process_address_total (raw : Option (List Char)) :
    (process_address raw).1.length = 3 ∧
      ((∀ c ∈ (process_address raw).1, isReDigit c = true) ∨
        (process_address raw).1 = blank3) ∧
      process_address none = (blank3, []) := by
  refine ⟨?_, ?_, rfl⟩ <;>
  · cases raw with
    | none => simp [process_address, processAddressWith, blank3]
    | some s =>
      rcases hm : matchZip (pyStrip s) with _ | ⟨z, g2⟩
      · rcases hf : zip_map.find? (fun p => isSubstring p.1 (pyStrip s)) with _ | p
        · have he := processWith_of_noMatch zip_map s hm
          rw [hf] at he
          rw [process_address_eq, he]
          simp [blank3]
        · have he := processWith_of_noMatch zip_map s hm
          rw [hf] at he
          rw [process_address_eq, he]
          have hmem : p ∈ zip_map := List.mem_of_find?_eq_some hf
          have hall : ∀ q ∈ zip_map, q.2.length = 3 ∧ ∀ c ∈ q.2, isReDigit c = true := by
            decide
          simp only
          first
          | exact (hall p hmem).1
          | exact Or.inl (hall p hmem).2
      · have he := processWith_of_match zip_map s z g2 hm
        rw [process_address_eq, he]
        have hshape := matchZip_shape _ _ _ hm
        simp only
        first
        | exact hshape.1
        | exact Or.inl hshape.2

/-- C8: a cell whose stripped content is the pandas null-marker token
`'nan'` is replaced by the empty string before normalization, so it
normalizes exactly like the empty string: blank placeholder code and empty
body. -/
theorem nan_cell_is_blank (s : List Char) (h : pyStrip s = "nan".data) :
    normalizeCell s = process_address (some []) ∧ normalizeCell s = (blank3, []) := by
  have hcell : cellString s = [] := by simp [cellString, h]
  constructor
  · simp [normalizeCell, hcell]
  · simp only [normalizeCell, hcell]
    decide

/-- C8 (witness): the literal cell `'nan'`. -/
theorem nan_cell_is_blank_witness :
    pyStrip "nan".data = "nan".data ∧
      (normalizeCell "nan".data = process_address (some []) ∧
        normalizeCell "nan".data = (blank3, [])) :=
  ⟨by decide, nan_cell_is_blank "nan".data (by decide)⟩

/-- C3: when the leading-code regex fails and entry `i` of the gazetteer is
the first (in authored iteration order) whose place name occurs in the
trimmed input, the result is that entry's code together with the trimmed
input itself as the body — the place name is not stripped. -/
theorem gazetteer_first_match (s town code : List Char) (i : Nat)
    (hre : matchZip (pyStrip s) = none)
    (hi : zip_map[i]? = some (town, code))
    (hmatch : isSubstring town (pyStrip s) = true)
    (hbefore : ∀ j, j < i → ∀ tc, zip_map[j]? = some tc →
      isSubstring tc.1 (pyStrip s) = false) :
    process_address (some s) = (code, pyStrip s) := by
  have hf : zip_map.find? (fun p => isSubstring p.1 (pyStrip s)) = some (town, code) :=
    find?_eq_of_first _ zip_map i (town, code) hi hmatch hbefore
  have he := processWith_of_noMatch zip_map s hre
  rw [hf] at he
  rw [process_address_eq]
  exact he

/-- C3 (witness): an address containing the first gazetteer entry. -/
theorem gazetteer_first_match_witness :
    matchZip (pyStrip "花蓮市中山路".data) = none ∧
      process_address (some "花蓮市中山路".data) = ("970".data, pyStrip "花蓮市中山路".data) :=
  ⟨by decide,
    gazetteer_first_match "花蓮市中山路".data "花蓮市".data "970".data 0
      (by decide) (by decide) (by decide)
      (fun j hj _ _ => absurd hj (Nat.not_lt_zero j))⟩

/-- C9: the two parentheses of the leading-code pattern are matched
independently, so any combination — absent, ASCII, or full-width on either
side, mismatched or mixed — still yields the three digits as the postal
code. -/
theorem paren_mismatch_ok (op cl rest s : List Char) (d1 d2 d3 : Char)
    (hop : op = [] ∨ op = ['('] ∨ op = ['（'])
    (hcl : cl = [] ∨ cl = [')'] ∨ cl = ['）'])
    (h1 : isReDigit d1 = true) (h2 : isReDigit d2 = true) (h3 : isReDigit d3 = true)
    (hs : pyStrip s = op ++ d1 :: d2 :: d3 :: (cl ++ rest)) :
    (process_address (some s)).1 = [d1, d2, d3] := by
  have hcore : ∃ g2, matchCore (d1 :: d2 :: d3 :: (cl ++ rest)) = some ([d1, d2, d3], g2) := by
    rcases hcl with rfl | rfl | rfl
    · cases rest with
      | nil => exact ⟨[], matchCore_nil d1 d2 d3 h1 h2 h3⟩
      | cons c rest2 =>
        rcases hc : isCloseParen c with hcf | hct
        · exact ⟨lineTake (c :: rest2), by
            simpa using matchCore_noClose d1 d2 d3 c rest2 h1 h2 h3 hc⟩
        · exact ⟨lineTake rest2, by
            simpa using matchCore_close d1 d2 d3 c rest2 h1 h2 h3 hc⟩
    · exact ⟨lineTake rest, by
        simpa using matchCore_close d1 d2 d3 ')' rest h1 h2 h3 (by decide)⟩
    · exact ⟨lineTake rest, by
        simpa using matchCore_close d1 d2 d3 '）' rest h1 h2 h3 (by decide)⟩
  obtain ⟨g2, hcore⟩ := hcore
  have hm : matchZip (pyStrip s) = some ([d1, d2, d3], g2) := by
    rw [hs]
    rcases hop with rfl | rfl | rfl
    · rw [List.nil_append, matchZip_notOpen _ _ (digit_not_open d1 h1)]
      exact hcore
    · rw [List.cons_append, List.nil_append, matchZip_open _ _ (by decide)]
      exact hcore
    · rw [List.cons_append, List.nil_append, matchZip_open _ _ (by decide)]
      exact hcore
  rw [process_address_eq, processWith_of_match zip_map s _ _ hm]

/-- C9 (witness): an unmatched ASCII opener, `"(950X"`. -/
theorem paren_mismatch_ok_witness :
    (process_address (some "(950X".data)).1 = ['9', '5', '0'] :=
  paren_mismatch_ok ['('] [] "X".data "(950X".data '9' '5' '0'
    (Or.inr (Or.inl rfl)) (Or.inl rfl) (by decide) (by decide) (by decide) (by decide)

/-- C2 (counterexample): for the input `"950a\nb"` — whose trimmed form
begins with three digits — the returned body is `"a"`, not everything
after the matched prefix trimmed, which is `"a\nb"`: Python's `.` stops at
a newline, so the text from the first newline on is dropped. -/
theorem regex_body_newline_cex :
    process_address (some "950a\nb".data) = ("950".data, ['a']) ∧
      pyStrip "a\nb".data = 'a' :: '\n' :: 'b' :: [] ∧
      (['a'] : List Char) ≠ 'a' :: '\n' :: 'b' :: [] := by
  decide

/-- C2 (amended): on the regex path the postal code is the three leading
digits and the body is everything after the matched prefix up to, not
including, the first newline, trimmed; text from the first newline on is
discarded.  (The side condition on `rest` when no closing parenthesis is
present pins the matched prefix exactly.) -/
theorem regex_path_body (op cl rest s : List Char) (d1 d2 d3 : Char)
    (hop : op = [] ∨ op = ['('] ∨ op = ['（'])
    (hcl : cl = [')'] ∨ cl = ['）'] ∨
      (cl = [] ∧ rest.head? ≠ some ')' ∧ rest.head? ≠ some '）'))
    (h1 : isReDigit d1 = true) (h2 : isReDigit d2 = true) (h3 : isReDigit d3 = true)
    (hs : pyStrip s = op ++ d1 :: d2 :: d3 :: (cl ++ rest)) :
    process_address (some s) = ([d1, d2, d3], pyStrip (lineTake rest)) := by
  have hcore : matchCore (d1 :: d2 :: d3 :: (cl ++ rest)) =
      some ([d1, d2, d3], lineTake rest) := by
    rcases hcl with rfl | rfl | ⟨rfl, hr1, hr2⟩
    · simpa using matchCore_close d1 d2 d3 ')' rest h1 h2 h3 (by decide)
    · simpa using matchCore_close d1 d2 d3 '）' rest h1 h2 h3 (by decide)
    · cases rest with
      | nil => simpa [lineTake] using matchCore_nil d1 d2 d3 h1 h2 h3
      | cons c rest2 =>
        have hc1 : ¬(c = ')') := fun h => hr1 (by simp [h])
        have hc2 : ¬(c = '）') := fun h => hr2 (by simp [h])
        have hc : isCloseParen c = false := by simp [isCloseParen, hc1, hc2]
        simpa using matchCore_noClose d1 d2 d3 c rest2 h1 h2 h3 hc
  have hm : matchZip (pyStrip s) = some ([d1, d2, d3], lineTake rest) := by
    rw [hs]
    rcases hop with rfl | rfl | rfl
    · rw [List.nil_append, matchZip_notOpen _ _ (digit_not_open d1 h1)]
      exact hcore
    · rw [List.cons_append, List.nil_append, matchZip_open _ _ (by decide)]
      exact hcore
    · rw [List.cons_append, List.nil_append, matchZip_open _ _ (by decide)]
      exact hcore
  rw [process_address_eq, processWith_of_match zip_map s _ _ hm]

/-- C2 (witness): the spec's own example address. -/
theorem regex_path_body_witness :
    process_address (some "(950)臺東縣臺東市中華路一段1號".data) =
      (['9', '5', '0'], pyStrip (lineTake "臺東縣臺東市中華路一段1號".data)) :=
  regex_path_body ['('] [')'] "臺東縣臺東市中華路一段1號".data
    "(950)臺東縣臺東市中華路一段1號".data '9' '5' '0'
    (Or.inr (Or.inl rfl)) (Or.inl rfl) (by decide) (by decide) (by decide) (by decide)

/-- C10: when the trimmed input starts with four or more digits, the
postal code is exactly the first three, the following digits stay at the
front of the body, and the gazetteer is never consulted — the result is
the same for every gazetteer table `zmap`. -/
theorem extra_digits_kept (zmap : List (List Char × List Char)) (ds rest s : List Char)
    (d1 d2 d3 : Char)
    (h1 : isReDigit d1 = true) (h2 : isReDigit d2 = true) (h3 : isReDigit d3 = true)
    (hne : ds ≠ []) (hds : ∀ c ∈ ds, isReDigit c = true)
    (hs : pyStrip s = d1 :: d2 :: d3 :: (ds ++ rest)) :
    (processAddressWith zmap (some s)).1 = [d1, d2, d3] ∧
      ((processAddressWith zmap (some s)).2).take ds.length = ds := by
  obtain ⟨d4, ds', rfl⟩ := List.exists_cons_of_ne_nil hne
  have hd4 : isReDigit d4 = true := hds d4 (by simp)
  have hcore : matchCore (d1 :: d2 :: d3 :: ((d4 :: ds') ++ rest)) =
      some ([d1, d2, d3], lineTake ((d4 :: ds') ++ rest)) := by
    simpa using matchCore_noClose d1 d2 d3 d4 (ds' ++ rest) h1 h2 h3 (digit_not_close d4 hd4)
  have hlt : lineTake ((d4 :: ds') ++ rest) = (d4 :: ds') ++ lineTake rest :=
    lineTake_append_digits _ rest hds
  have hm : matchZip (pyStrip s) = some ([d1, d2, d3], (d4 :: ds') ++ lineTake rest) := by
    rw [hs, matchZip_notOpen _ _ (digit_not_open d1 h1), hcore, hlt]
  rw [processWith_of_match zmap s _ _ hm]
  refine ⟨rfl, ?_⟩
  obtain ⟨u, hu⟩ := pyStrip_keeps_front (d4 :: ds') (lineTake rest) (by simp)
    (fun c hc => digit_not_space c (hds c hc))
  rw [hu]
  exact List.take_left _ _

/-- C10 (witness): a 5-digit leading code, `"95012臺東市"`, against the
source's own gazetteer. -/
theorem extra_digits_kept_witness :
    (processAddressWith zip_map (some "95012臺東市".data)).1 = ['9', '5', '0'] ∧
      ((processAddressWith zip_map (some "95012臺東市".data)).2).take ("12".data).length =
        "12".data :=
  extra_digits_kept zip_map "12".data "臺東市".data "95012臺東市".data '9' '5' '0'
    (by decide) (by decide) (by decide) (by decide) (by decide) (by decide)

end App
